import Mathlib

/-!
Shallow embedding of `src/main.py` (github-workflow-monitor).

The repository is a single Python file defining `GitHubActionsMonitor`.
Network collaborators (`requests.get` inside `get_workflow_runs` and
`get_run_details`) are modelled as input data: the per-cycle provider
results and a per-identifier fetch function `Nat → Option Run`.
`self.monitored_runs` (a Python dict, insertion ordered) is modelled as an
association list `List (Nat × TrackedRun)` in insertion order.
-/

/-- The per-run tracking record created at `main.py:138-141`:
`{'notified_start': False, 'notified_end': False}`. -/
structure TrackedRun where
  notified_start : Bool
  notified_end : Bool
deriving DecidableEq, Repr

/-- A workflow-run record as consumed by the monitor.  Fields the Python code
reads with `.get(key, default)` are `Option`s (with the default applied at the
use site, as in the source); `run['id']` and `run_details['status']` are read
by direct indexing in the source, so they are plain fields. -/
structure Run where
  id : Nat
  name : Option String := none
  head_branch : Option String := none
  actor_login : Option String := none
  run_number : Option Nat := none
  head_commit_message : Option String := none
  status : String := ""
  conclusion : Option String := none
  created_at : Option String := none
  updated_at : Option String := none
  html_url : Option String := none
deriving DecidableEq, Repr

/-- `self.monitored_runs` (`main.py:17`): insertion-ordered map id → flags. -/
abbrev Table := List (Nat × TrackedRun)

/-- `run_id in self.monitored_runs` (`main.py:136`). -/
def containsId (t : Table) (i : Nat) : Bool :=
  t.any (fun p => p.1 == i)

/-- `self.monitored_runs[run_id]` (read). -/
def lookupId (t : Table) (i : Nat) : Option TrackedRun :=
  (t.find? (fun p => p.1 == i)).map Prod.snd

/-- `self.monitored_runs[run_id][...] = True` (write to the entry keyed `i`;
dict keys are unique, so updating every pair with key `i` coincides with the
dict update on all tables the program can build). -/
def setEntry (t : Table) (i : Nat) (f : TrackedRun → TrackedRun) : Table :=
  t.map (fun p => if p.1 == i then (p.1, f p.2) else p)

/-- Context the message builders close over: `self.repo_owner`,
`self.repo_name`, and the wall clock used by `datetime.now().astimezone()`
(modelled as absolute seconds, an aware instant). -/
structure Ctx where
  repo_owner : String
  repo_name : String
  nowSec : Int
deriving Repr

/-! ### Timestamp parsing (modelled collaborator)

`format_duration` at `main.py:48-62` calls CPython
`datetime.fromisoformat(s.replace('Z', '+00:00'))`.  The parser below models
`fromisoformat` restricted to the full date-time shapes the provider emits:
`YYYY-MM-DDTHH:MM:SS` with an optional `±HH:MM` offset.  It returns
`(local seconds, offset seconds if aware)`; a naive timestamp has no offset.
Field-range validation (month 1-12, day 1-31, hour ≤ 23, minute/second ≤ 59,
offset within ±23:59) mirrors `fromisoformat`; per-month day counts and
fractional seconds are outside the modelled scope. -/

/-- Value of a decimal digit character, if it is one. -/
def digitVal? (c : Char) : Option Nat :=
  if c.isDigit then some (c.toNat - 48) else none

/-- Read exactly two digits. -/
def read2 : List Char → Option (Nat × List Char)
  | c1 :: c2 :: rest =>
    match digitVal? c1, digitVal? c2 with
    | some a, some b => some (10 * a + b, rest)
    | _, _ => none
  | _ => none

/-- Read exactly four digits. -/
def read4 : List Char → Option (Nat × List Char)
  | c1 :: c2 :: c3 :: c4 :: rest =>
    match digitVal? c1, digitVal? c2, digitVal? c3, digitVal? c4 with
    | some a, some b, some c, some d => some (1000 * a + 100 * b + 10 * c + d, rest)
    | _, _, _, _ => none
  | _ => none

/-- Consume one expected character. -/
def expectChar (ch : Char) : List Char → Option (List Char)
  | c :: rest => if c = ch then some rest else none
  | [] => none

/-- Days since 1970-01-01 of a civil date (standard days-from-civil
computation, proleptic Gregorian — what `datetime` uses). -/
def daysFromCivil (y m d : Int) : Int :=
  let y2 := if m ≤ 2 then y - 1 else y
  let era := Int.fdiv y2 400
  let yoe := y2 - era * 400
  let mp := Int.emod (m + 9) 12
  let doy := Int.ediv (153 * mp + 2) 5 + d - 1
  let doe := yoe * 365 + Int.ediv yoe 4 - Int.ediv yoe 100 + doy
  era * 146097 + doe - 719468

/-- Parse `YYYY-MM-DD`, returning (year, month, day, rest). -/
def parseDate (cs : List Char) : Option (Nat × Nat × Nat × List Char) :=
  match read4 cs with
  | none => none
  | some (y, cs1) =>
    match expectChar '-' cs1 with
    | none => none
    | some cs2 =>
      match read2 cs2 with
      | none => none
      | some (mo, cs3) =>
        match expectChar '-' cs3 with
        | none => none
        | some cs4 =>
          match read2 cs4 with
          | none => none
          | some (d, cs5) => some (y, mo, d, cs5)

/-- Parse `HH:MM:SS`, returning (hour, minute, second, rest). -/
def parseTime (cs : List Char) : Option (Nat × Nat × Nat × List Char) :=
  match read2 cs with
  | none => none
  | some (hh, cs1) =>
    match expectChar ':' cs1 with
    | none => none
    | some cs2 =>
      match read2 cs2 with
      | none => none
      | some (mi, cs3) =>
        match expectChar ':' cs3 with
        | none => none
        | some cs4 =>
          match read2 cs4 with
          | none => none
          | some (ss, cs5) => some (hh, mi, ss, cs5)

/-- Parse a trailing `±HH:MM` offset (the whole rest of the input). -/
def parseOffset (cs : List Char) : Option Int :=
  match cs with
  | c :: cs1 =>
    if c = '+' || c = '-' then
      match read2 cs1 with
      | none => none
      | some (oh, cs2) =>
        match expectChar ':' cs2 with
        | none => none
        | some cs3 =>
          match read2 cs3 with
          | none => none
          | some (om, cs4) =>
            if oh > 23 || om > 59 || !cs4.isEmpty then none
            else some (if c = '-' then -(Int.ofNat (oh * 3600 + om * 60))
                       else Int.ofNat (oh * 3600 + om * 60))
    else none
  | [] => none

/-- Modelled collaborator: `datetime.fromisoformat` (see section comment). -/
def parseTimestamp (s : String) : Option (Int × Option Int) :=
  match parseDate s.data with
  | none => none
  | some (y, mo, d, cs5) =>
    match expectChar 'T' cs5 with
    | none => none
    | some cs6 =>
      match parseTime cs6 with
      | none => none
      | some (hh, mi, ss, cs11) =>
        if mo < 1 || mo > 12 || d < 1 || d > 31 || hh > 23 || mi > 59 || ss > 59 then
          none
        else
          let base : Int :=
            daysFromCivil (Int.ofNat y) (Int.ofNat mo) (Int.ofNat d) * 86400 +
              Int.ofNat (hh * 3600 + mi * 60 + ss)
          match cs11 with
          | [] => some (base, none)
          | c :: cs12 =>
            match parseOffset (c :: cs12) with
            | none => none
            | some off => some (base, some off)

/-- `s.replace('Z', '+00:00')` (`main.py:51-53`): every `Z` is replaced; the
pattern is a single character, so a character-wise rewrite is exact. -/
def replaceZ (s : String) : String :=
  String.mk (s.data.foldr
    (fun c acc =>
      if c = 'Z' then '+' :: '0' :: '0' :: ':' :: '0' :: '0' :: acc else c :: acc)
    [])

/-- `main.py:56-60`: whole seconds decomposed with Python `//` and `%`
(floor division / floor modulus, which `Int.fdiv` / `Int.fmod` match). -/
def fmtSeconds (total : Int) : String :=
  let minutes := Int.fdiv total 60
  let seconds := Int.fmod total 60
  if minutes > 0 then
    toString minutes ++ "m " ++ toString seconds ++ "s"
  else
    toString seconds ++ "s"

/-- `GitHubActionsMonitor.format_duration` (`main.py:48-62`).
The bare `except` maps every failure to `"Desconocida"`:
an absent (`None`) start (whose `.replace` raises `AttributeError`), a parse
failure of either string, and the `TypeError` of subtracting a naive datetime
from an aware one.  A falsy (`None` or empty) `end_time` selects
`datetime.now().astimezone()`, an aware instant, modelled by `nowSec`. -/
def format_duration (nowSec : Int) (start_time end_time : Option String) : String :=
  match start_time with
  | none => "Desconocida"
  | some st =>
    match parseTimestamp (replaceZ st) with
    | none => "Desconocida"
    | some s =>
      let eParsed : Option (Int × Option Int) :=
        match end_time with
        | some et => if et = "" then some (nowSec, some 0) else parseTimestamp (replaceZ et)
        | none => some (nowSec, some 0)
      match eParsed with
      | none => "Desconocida"
      | some e =>
        match s.2, e.2 with
        | some so, some eo => fmtSeconds ((e.1 - eo) - (s.1 - so))
        | none, none => fmtSeconds (e.1 - s.1)
        | _, _ => "Desconocida"

/-- `GitHubActionsMonitor.create_start_message` (`main.py:64-84`). -/
def create_start_message (ctx : Ctx) (run_data : Run) : String :=
  let workflow_name := run_data.name.getD "Workflow"
  let branch := run_data.head_branch.getD "rama desconocida"
  let actor := run_data.actor_login.getD "Usuario"
  let run_number := (run_data.run_number.map toString).getD "N/A"
  let commit_msg0 := run_data.head_commit_message.getD ""
  let commit_msg :=
    if commit_msg0.length > 80 then commit_msg0.take 80 ++ "..." else commit_msg0
  "🚀 **GitHub Action Iniciado**\n\n**Repo:** " ++ ctx.repo_owner ++ "/" ++
    ctx.repo_name ++ "\n**Workflow:** " ++ workflow_name ++ " (#" ++ run_number ++
    ")\n**Rama:** " ++ branch ++ "\n**Por:** " ++ actor ++ "\n**Commit:** " ++
    commit_msg ++ "\n\n[Ver en GitHub](" ++ run_data.html_url.getD "#" ++ ")"

/-- The `status_map` dict lookup with default (`main.py:94-100`). -/
def status_map (conclusion : String) : String × String :=
  if conclusion = "success" then ("✅", "EXITOSO")
  else if conclusion = "failure" then ("❌", "FALLIDO")
  else if conclusion = "cancelled" then ("⏹️", "CANCELADO")
  else if conclusion = "skipped" then ("⏭️", "OMITIDO")
  else ("⚠️", "COMPLETADO")

/-- `GitHubActionsMonitor.create_completion_message` (`main.py:86-114`). -/
def create_completion_message (ctx : Ctx) (run_data : Run) : String :=
  let workflow_name := run_data.name.getD "Workflow"
  let branch := run_data.head_branch.getD "rama desconocida"
  let conclusion := run_data.conclusion.getD "unknown"
  let run_number := (run_data.run_number.map toString).getD "N/A"
  let ep := status_map conclusion
  let duration := format_duration ctx.nowSec run_data.created_at run_data.updated_at
  ep.1 ++ " **GitHub Action " ++ ep.2 ++ "**\n\n**Repo:** " ++ ctx.repo_owner ++
    "/" ++ ctx.repo_name ++ "\n**Workflow:** " ++ workflow_name ++ " (#" ++
    run_number ++ ")\n**Rama:** " ++ branch ++ "\n**Duración:** " ++ duration ++
    "\n\n[Ver en GitHub](" ++ run_data.html_url.getD "#" ++ ")"

/-- Does `hay` begin with `needle`? (helper for substring containment). -/
def beginsWith : List Char → List Char → Bool
  | _, [] => true
  | [], _ :: _ => false
  | c :: cs, d :: ds => c == d && beginsWith cs ds

/-- Does the character sequence contain `needle` as a contiguous block? -/
def containsSeq : List Char → List Char → Bool
  | [], needle => needle.isEmpty
  | c :: cs, needle => beginsWith (c :: cs) needle || containsSeq cs needle

/-- Substring containment on strings. -/
def strContains (hay needle : String) : Bool :=
  containsSeq hay.data needle.data

/-! ### Run tracker and poll loop (the body of `GitHubActionsMonitor.monitor`)

One poll-loop iteration (`main.py:124-173`) is decomposed exactly as the
source is: the new-run pass (`main.py:133-149`), the completed-run check
(`main.py:151-165`) and eviction (`main.py:167-171`).  `send_notification`
being supplied or `None` is the `hasSink` flag; a dispatched notification is
recorded as the pair (run identifier, message text). -/

/-- The classification-and-insertion core of the new-run pass
(`main.py:133-141`): every run whose identifier is untracked is inserted with
both flags false, and collected (in input order) as the to-notify-start list.
This is the spec operation `observe_active`. -/
def observe_active (t : Table) : List Run → Table × List Run
  | [] => (t, [])
  | r :: rs =>
    if containsId t r.id then observe_active t rs
    else
      let res := observe_active (t ++ [(r.id, ⟨false, false⟩)]) rs
      (res.1, r :: res.2)

/-- The full new-run pass (`main.py:133-149`): as `observe_active`, but when a
sink is supplied the start message is built, dispatched, and
`notified_start` set true on the fresh entry. -/
def processNewRuns (ctx : Ctx) (hasSink : Bool) : List Run → Table → Table × List (Nat × String)
  | [], t => (t, [])
  | r :: rs, t =>
    if containsId t r.id then processNewRuns ctx hasSink rs t
    else
      let t1 := t ++ [(r.id, ⟨false, false⟩)]
      if hasSink then
        let msg := create_start_message ctx r
        let t2 := setEntry t1 r.id (fun e => { e with notified_start := true })
        let res := processNewRuns ctx hasSink rs t2
        (res.1, (r.id, msg) :: res.2)
      else
        processNewRuns ctx hasSink rs t1

/-- Result of the completed-run check: the table after flag updates, the
dispatched completion notifications, and the identifiers for which
`get_run_details` was invoked. -/
structure CheckResult where
  table : Table
  dispatched : List (Nat × String)
  fetched : List Nat
deriving Repr

/-- The loop body of the completed-run check (`main.py:152-165`), iterating a
snapshot of the keys.  An entry already `notified_end` is skipped before any
fetch; an absent fetch result, or a status other than "completed", changes
nothing; a completed fetch with a sink dispatches the completion message and
sets `notified_end`.  (The `lookupId = none` branch is unreachable on tables
the program builds, since the key snapshot is taken from the same table and
the loop never deletes.) -/
def checkCompletedAux (ctx : Ctx) (hasSink : Bool) (fetch : Nat → Option Run) :
    List Nat → Table → CheckResult
  | [], t => ⟨t, [], []⟩
  | i :: is, t =>
    match lookupId t i with
    | none => checkCompletedAux ctx hasSink fetch is t
    | some e =>
      if e.notified_end then checkCompletedAux ctx hasSink fetch is t
      else
        match fetch i with
        | none =>
          let r := checkCompletedAux ctx hasSink fetch is t
          ⟨r.table, r.dispatched, i :: r.fetched⟩
        | some d =>
          if d.status = "completed" then
            if hasSink then
              let msg := create_completion_message ctx d
              let t2 := setEntry t i (fun en => { en with notified_end := true })
              let r := checkCompletedAux ctx hasSink fetch is t2
              ⟨r.table, (i, msg) :: r.dispatched, i :: r.fetched⟩
            else
              let r := checkCompletedAux ctx hasSink fetch is t
              ⟨r.table, r.dispatched, i :: r.fetched⟩
          else
            let r := checkCompletedAux ctx hasSink fetch is t
            ⟨r.table, r.dispatched, i :: r.fetched⟩

/-- The completed-run check (`main.py:151-165`): iterate over
`list(self.monitored_runs.keys())`. -/
def checkCompleted (ctx : Ctx) (hasSink : Bool) (fetch : Nat → Option Run) (t : Table) :
    CheckResult :=
  checkCompletedAux ctx hasSink fetch (t.map Prod.fst) t

/-- Eviction (`main.py:167-171`): when the table holds more than 50 entries,
`old_runs = list(keys)[:-30]` (all but the last 30 keys) are deleted. -/
def evict (t : Table) : Table :=
  if t.length > 50 then
    let old := (t.map Prod.fst).take (t.length - 30)
    t.filter (fun p => !(old.contains p.1))
  else t

/-- The active-run list of one cycle (`main.py:127-130`): the plain
concatenation of the provider results for status `queued` and
`in_progress`. -/
def activeRuns (queued inProgress : List Run) : List Run :=
  queued ++ inProgress

/-- First-occurrence-per-identifier deduplication (what the spec asserts the
active-run list to be); `seen` holds identifiers already kept. -/
def dedupById (seen : List Nat) : List Run → List Run
  | [] => []
  | r :: rs =>
    if seen.contains r.id then dedupById seen rs
    else r :: dedupById (r.id :: seen) rs

/-- Provider data consumed by one poll cycle: the two `get_workflow_runs`
results and the `get_run_details` responses. -/
structure CycleInput where
  queued : List Run
  inProgress : List Run
  fetch : Nat → Option Run

/-- One full poll-loop cycle (`main.py:126-171`): new-run pass, completed-run
check, eviction.  Returns the table plus the start and completion
notifications dispatched this cycle. -/
def cycle (ctx : Ctx) (hasSink : Bool) (inp : CycleInput) (t : Table) :
    Table × List (Nat × String) × List (Nat × String) :=
  let res := processNewRuns ctx hasSink (activeRuns inp.queued inp.inProgress) t
  let chk := checkCompleted ctx hasSink inp.fetch res.1
  (evict chk.table, res.2, chk.dispatched)

/-- Any number of consecutive poll cycles; collects every completion
notification dispatched, in order. -/
def runCycles (ctx : Ctx) (hasSink : Bool) : List CycleInput → Table → Table × List (Nat × String)
  | [], t => (t, [])
  | c :: cs, t =>
    let step := cycle ctx hasSink c t
    let rest := runCycles ctx hasSink cs step.1
    (rest.1, step.2.2 ++ rest.2)

/-- Any number of consecutive completed-run checks on the tracker state (the
checks of successive cycles, restricted to an identifier that is neither
evicted nor re-observed in between).  Returns the final table, all completion
notifications, and the per-check fetched-identifier lists. -/
def iterChecks (ctx : Ctx) (hasSink : Bool) :
    List (Nat → Option Run) → Table → Table × List (Nat × String) × List (List Nat)
  | [], t => (t, [], [])
  | f :: fs, t =>
    let r := checkCompleted ctx hasSink f t
    let rest := iterChecks ctx hasSink fs r.table
    (rest.1, r.dispatched ++ rest.2.1, r.fetched :: rest.2.2)

/-- Number of notifications in `ms` dispatched for identifier `i`. -/
def countI (i : Nat) (ms : List (Nat × String)) : Nat :=
  (ms.filter (fun p => p.1 == i)).length

/-- The state `GitHubActionsMonitor.__init__` builds (`main.py:8-17`). -/
structure Monitor where
  repo_owner : String
  repo_name : String
  auth_header : String
  base_url : String
  monitored_runs : Table
deriving DecidableEq, Repr

/-- `GitHubActionsMonitor.__init__` (`main.py:8-17`): stores its arguments and
derived strings unconditionally — there is no validation, so construction
succeeds for every input. -/
def GitHubActionsMonitor.init (repo_owner repo_name github_token : String) : Monitor :=
  { repo_owner := repo_owner
    repo_name := repo_name
    auth_header := "Bearer " ++ github_token
    base_url := "https://api.github.com/repos/" ++ repo_owner ++ "/" ++ repo_name
    monitored_runs := [] }

/-- The construction path of `main` (`main.py:205-211`): the guard
`if not all([REPO_OWNER, REPO_NAME, GITHUB_TOKEN]): return` refuses to build
the monitor when any of the three strings is falsy (empty). -/
def mainConstruct (owner name token : String) : Option Monitor :=
  if owner = "" ∨ name = "" ∨ token = "" then none
  else some (GitHubActionsMonitor.init owner name token)

/-! ### Basic lemmas about the table operations -/

theorem keys_setEntry (t : Table) (j : Nat) (f : TrackedRun → TrackedRun) :
    (setEntry t j f).map Prod.fst = t.map Prod.fst := by
  induction t with
  | nil => rfl
  | cons p t ih =>
    obtain ⟨a, b⟩ := p
    by_cases h : a = j
    · simp [setEntry, h] at ih ⊢; exact ih
    · simp [setEntry, h] at ih ⊢; exact ih

theorem setEntry_cons (a : Nat) (b : TrackedRun) (t : Table) (j : Nat)
    (f : TrackedRun → TrackedRun) :
    setEntry ((a, b) :: t) j f =
      (if (a == j) = true then (a, f b) else (a, b)) :: setEntry t j f := rfl

theorem containsId_cons (a : Nat) (b : TrackedRun) (t : Table) (i : Nat) :
    containsId ((a, b) :: t) i = ((a == i) || containsId t i) := by
  simp [containsId]

theorem containsId_setEntry (t : Table) (j i : Nat) (f : TrackedRun → TrackedRun) :
    containsId (setEntry t j f) i = containsId t i := by
  induction t with
  | nil => rfl
  | cons p t ih =>
    obtain ⟨a, b⟩ := p
    rw [setEntry_cons]
    by_cases h : a = j
    · rw [if_pos (by simpa using h), containsId_cons, containsId_cons, ih]
    · rw [if_neg (by simpa using h), containsId_cons, containsId_cons, ih]

theorem containsId_append (t u : Table) (i : Nat) :
    containsId (t ++ u) i = (containsId t i || containsId u i) := by
  simp [containsId, List.any_append]

theorem lookupId_cons_self (a : Nat) (b : TrackedRun) (t : Table) :
    lookupId ((a, b) :: t) a = some b := by
  simp [lookupId, List.find?_cons_of_pos]

theorem lookupId_cons_ne (a : Nat) (b : TrackedRun) (t : Table) (i : Nat) (h : a ≠ i) :
    lookupId ((a, b) :: t) i = lookupId t i := by
  simp only [lookupId]
  rw [List.find?_cons_of_neg]
  simpa using h

theorem lookupId_setEntry_self (t : Table) (i : Nat) (f : TrackedRun → TrackedRun) :
    lookupId (setEntry t i f) i = (lookupId t i).map f := by
  induction t with
  | nil => rfl
  | cons p t ih =>
    obtain ⟨a, b⟩ := p
    rw [setEntry_cons]
    by_cases h : a = i
    · subst h
      rw [if_pos (by simp), lookupId_cons_self, lookupId_cons_self]
      rfl
    · rw [if_neg (by simpa using h), lookupId_cons_ne _ _ _ _ h,
        lookupId_cons_ne _ _ _ _ h]
      exact ih

theorem lookupId_setEntry_ne (t : Table) (j i : Nat) (f : TrackedRun → TrackedRun)
    (h : j ≠ i) : lookupId (setEntry t j f) i = lookupId t i := by
  induction t with
  | nil => rfl
  | cons p t ih =>
    obtain ⟨a, b⟩ := p
    rw [setEntry_cons]
    by_cases ha : a = j
    · subst ha
      rw [if_pos (by simp), lookupId_cons_ne _ _ _ _ h, lookupId_cons_ne _ _ _ _ h]
      exact ih
    · rw [if_neg (by simpa using ha)]
      by_cases hi : a = i
      · subst hi
        rw [lookupId_cons_self, lookupId_cons_self]
      · rw [lookupId_cons_ne _ _ _ _ hi, lookupId_cons_ne _ _ _ _ hi]
        exact ih

theorem lookupId_mem_keys (t : Table) (i : Nat) (e : TrackedRun)
    (h : lookupId t i = some e) : i ∈ t.map Prod.fst := by
  induction t with
  | nil => simp [lookupId] at h
  | cons p t ih =>
    obtain ⟨a, b⟩ := p
    by_cases hp : a = i
    · simp [hp]
    · rw [lookupId_cons_ne _ _ _ _ hp] at h
      simp only [List.map_cons, List.mem_cons]
      exact Or.inr (ih h)

theorem lookupId_append_right (t u : Table) (i : Nat)
    (h : containsId t i = false) : lookupId (t ++ u) i = lookupId u i := by
  induction t with
  | nil => rfl
  | cons p t ih =>
    obtain ⟨a, b⟩ := p
    simp only [containsId, List.any_cons, Bool.or_eq_false_iff] at h
    rw [List.cons_append, lookupId_cons_ne _ _ _ _ (by simpa using h.1)]
    exact ih h.2

theorem containsId_false_of_lookup_none (t : Table) (i : Nat)
    (h : lookupId t i = none) : containsId t i = false := by
  induction t with
  | nil => rfl
  | cons p t ih =>
    obtain ⟨a, b⟩ := p
    by_cases hp : a = i
    · subst hp; rw [lookupId_cons_self] at h; cases h
    · rw [lookupId_cons_ne _ _ _ _ hp] at h
      simp only [containsId, List.any_cons, Bool.or_eq_false_iff]
      exact ⟨by simpa using hp, ih h⟩

theorem lookup_some_of_containsId (t : Table) (i : Nat)
    (h : containsId t i = true) : ∃ e, lookupId t i = some e := by
  cases hl : lookupId t i with
  | some e => exact ⟨e, rfl⟩
  | none => rw [containsId_false_of_lookup_none t i hl] at h; cases h

theorem containsId_of_lookup_some (t : Table) (i : Nat) (e : TrackedRun)
    (h : lookupId t i = some e) : containsId t i = true := by
  cases hc : containsId t i with
  | true => rfl
  | false =>
    induction t with
    | nil => simp [lookupId] at h
    | cons p t ih =>
      obtain ⟨a, b⟩ := p
      simp only [containsId, List.any_cons, Bool.or_eq_false_iff] at hc
      rw [lookupId_cons_ne _ _ _ _ (by simpa using hc.1)] at h
      exact ih h hc.2

/-! ### Lemmas about the new-run pass -/

theorem processNewRuns_all_present (ctx : Ctx) (hs : Bool) (rs : List Run) (t : Table)
    (h : ∀ r ∈ rs, containsId t r.id = true) :
    processNewRuns ctx hs rs t = (t, []) := by
  induction rs with
  | nil => rfl
  | cons r rs ih =>
    have hr := h r (by simp)
    simp only [processNewRuns, hr, if_true]
    exact ih fun r' hm => h r' (by simp [hm])

theorem processNewRuns_containsId_mono (ctx : Ctx) (hs : Bool) (rs : List Run) :
    ∀ (t : Table) (i : Nat), containsId t i = true →
      containsId (processNewRuns ctx hs rs t).1 i = true := by
  induction rs with
  | nil => intro t i h; simpa [processNewRuns] using h
  | cons r rs ih =>
    intro t i h
    by_cases hc : containsId t r.id = true
    · simp only [processNewRuns, hc, if_true]
      exact ih t i h
    · simp only [processNewRuns, eq_false_of_ne_true hc, if_false]
      cases hs with
      | false =>
        refine ih _ i ?_
        rw [containsId_append, h, Bool.true_or]
      | true =>
        simp only []
        refine ih _ i ?_
        rw [containsId_setEntry, containsId_append, h, Bool.true_or]

theorem processNewRuns_mem (ctx : Ctx) (hs : Bool) (rs : List Run) :
    ∀ (t : Table) (r : Run), r ∈ rs →
      containsId (processNewRuns ctx hs rs t).1 r.id = true := by
  induction rs with
  | nil => intro t r h; cases h
  | cons r0 rs ih =>
    intro t r h
    by_cases hc : containsId t r0.id = true
    · simp only [processNewRuns, hc, if_true]
      rcases List.mem_cons.mp h with h0 | hmem
      · subst h0; exact processNewRuns_containsId_mono ctx hs rs t r.id hc
      · exact ih t r hmem
    · simp only [processNewRuns, eq_false_of_ne_true hc, if_false]
      have hins : containsId (t ++ [(r0.id, ⟨false, false⟩)]) r0.id = true := by
        rw [containsId_append]
        simp [containsId]
      rcases List.mem_cons.mp h with h0 | hmem
      · subst h0
        cases hs with
        | false => exact processNewRuns_containsId_mono ctx false rs _ r.id hins
        | true =>
          simp only []
          refine processNewRuns_containsId_mono ctx true rs _ r.id ?_
          rw [containsId_setEntry]; exact hins
      · cases hs with
        | false => exact ih _ r hmem
        | true => simp only []; exact ih _ r hmem

theorem observe_active_containsId_mono (rs : List Run) :
    ∀ (t : Table) (i : Nat), containsId t i = true →
      containsId (observe_active t rs).1 i = true := by
  induction rs with
  | nil => intro t i h; simpa [observe_active] using h
  | cons r rs ih =>
    intro t i h
    by_cases hc : containsId t r.id = true
    · simp only [observe_active, hc, if_true]
      exact ih t i h
    · simp only [observe_active, eq_false_of_ne_true hc, if_false]
      refine ih _ i ?_
      rw [containsId_append, h, Bool.true_or]

theorem observe_active_all_new (runs : List Run) :
    ∀ (t : Table),
      (∀ r ∈ runs, containsId t r.id = false) →
      (runs.map Run.id).Nodup →
      observe_active t runs =
        (t ++ runs.map (fun r => (r.id, ⟨false, false⟩)), runs) := by
  induction runs with
  | nil => intro t _ _; simp [observe_active]
  | cons r rs ih =>
    intro t habs hnd
    have hc : containsId t r.id = false := habs r (by simp)
    simp only [observe_active, hc, if_false]
    simp only [List.map_cons, List.nodup_cons] at hnd
    have habs' : ∀ r' ∈ rs, containsId (t ++ [(r.id, ⟨false, false⟩)]) r'.id = false := by
      intro r' hm
      rw [containsId_append, habs r' (by simp [hm]), Bool.false_or]
      have : r.id ≠ r'.id := fun hEq => hnd.1 (hEq ▸ List.mem_map_of_mem Run.id hm)
      simp [containsId, this]
    rw [ih _ habs' hnd.2]
    simp

/-- C2.  Idempotence of new-run observation: running the new-run pass
(`main.py:133-149`) a second time on the same run list, starting from the
table the first pass left, changes nothing and dispatches no start
notification — with or without a notification sink. -/
theorem observe_active_idempotent (ctx : Ctx) (hs : Bool) (runs : List Run) (t : Table) :
    processNewRuns ctx hs runs (processNewRuns ctx hs runs t).1 =
      ((processNewRuns ctx hs runs t).1, []) :=
  processNewRuns_all_present ctx hs runs _
    (fun r hr => processNewRuns_mem ctx hs runs t r hr)

/-- C3, counterexample.  An input list whose identifiers are all absent from
the (empty) tracking table, but which repeats an identifier: the second
occurrence is not classified as new, so the returned to-notify-start list is
not the input list. -/
theorem observe_active_duplicate_id_counterexample :
    (observe_active []
        [{ id := 5, run_number := some 1 }, { id := 5, run_number := some 2 }]).2 ≠
      [{ id := 5, run_number := some 1 }, { id := 5, run_number := some 2 }] := by
  decide

/-- C3, amended: for an input list of runs with pairwise-distinct identifiers,
all absent from the tracking table, the new-run pass returns exactly those
runs in input order and inserts an entry for each with both flags false. -/
theorem observe_active_new_runs (t : Table) (runs : List Run)
    (habs : ∀ r ∈ runs, containsId t r.id = false)
    (hnd : (runs.map Run.id).Nodup) :
    observe_active t runs =
      (t ++ runs.map (fun r => (r.id, ⟨false, false⟩)), runs) :=
  observe_active_all_new runs t habs hnd

/-- Witness for C3 (amended) at a concrete input. -/
theorem observe_active_new_runs_witness :
    (∀ r ∈ [({ id := 1 } : Run), { id := 2 }], containsId [] r.id = false) ∧
      ([({ id := 1 } : Run), { id := 2 }].map Run.id).Nodup ∧
      observe_active [] [({ id := 1 } : Run), { id := 2 }] =
        ([] ++ [({ id := 1 } : Run), { id := 2 }].map (fun r => (r.id, ⟨false, false⟩)),
          [({ id := 1 } : Run), { id := 2 }]) :=
  ⟨by decide, by decide,
    observe_active_new_runs [] [{ id := 1 }, { id := 2 }] (by decide) (by decide)⟩

/-! ### Lemmas about the completed-run check -/

theorem processNewRuns_false_eq (ctx : Ctx) (rs : List Run) :
    ∀ t : Table, processNewRuns ctx false rs t = ((observe_active t rs).1, []) := by
  induction rs with
  | nil => intro t; rfl
  | cons r rs ih =>
    intro t
    by_cases hc : containsId t r.id = true
    · simp only [processNewRuns, observe_active, hc, if_true]
      exact ih t
    · simp only [processNewRuns, observe_active, eq_false_of_ne_true hc, if_false,
        Bool.false_eq_true]
      exact ih _

theorem observe_active_flags_false (rs : List Run) :
    ∀ (t : Table), (∀ p ∈ t, p.2.notified_start = false ∧ p.2.notified_end = false) →
      ∀ p ∈ (observe_active t rs).1,
        p.2.notified_start = false ∧ p.2.notified_end = false := by
  induction rs with
  | nil => intro t h; simpa [observe_active] using h
  | cons r rs ih =>
    intro t h
    by_cases hc : containsId t r.id = true
    · simp only [observe_active, hc, if_true]
      exact ih t h
    · simp only [observe_active, eq_false_of_ne_true hc, if_false]
      refine ih _ ?_
      intro p hp
      rcases List.mem_append.mp hp with hl | hr
      · exact h p hl
      · simp only [List.mem_singleton] at hr
        subst hr
        exact ⟨rfl, rfl⟩

theorem checkCompletedAux_false_table (ctx : Ctx) (fetch : Nat → Option Run) :
    ∀ (ks : List Nat) (t : Table),
      (checkCompletedAux ctx false fetch ks t).table = t ∧
        (checkCompletedAux ctx false fetch ks t).dispatched = [] := by
  intro ks
  induction ks with
  | nil => intro t; exact ⟨rfl, rfl⟩
  | cons i is ih =>
    intro t
    simp only [checkCompletedAux]
    cases hl : lookupId t i with
    | none => exact ih t
    | some e =>
      by_cases he : e.notified_end = true
      · simp only [he, if_true]; exact ih t
      · simp only [eq_false_of_ne_true he, if_false, Bool.false_eq_true]
        cases hf : fetch i with
        | none => exact ih t
        | some d =>
          by_cases hd : d.status = "completed"
          · simp only [hd, if_pos, if_false, Bool.false_eq_true]
            exact ih t
          · simp only [if_neg hd]
            exact ih t

theorem checkCompletedAux_false_fetched (ctx : Ctx) (fetch : Nat → Option Run) :
    ∀ (ks : List Nat) (t : Table) (i : Nat) (e : TrackedRun),
      i ∈ ks → lookupId t i = some e → e.notified_end = false →
      i ∈ (checkCompletedAux ctx false fetch ks t).fetched := by
  intro ks
  induction ks with
  | nil => intro t i e h; cases h
  | cons k is ih =>
    intro t i e hmem hl hne
    simp only [checkCompletedAux]
    cases hlk : lookupId t k with
    | none =>
      rcases List.mem_cons.mp hmem with h0 | hi
      · subst h0; rw [hl] at hlk; cases hlk
      · exact ih t i e hi hl hne
    | some ek =>
      by_cases hek : ek.notified_end = true
      · rcases List.mem_cons.mp hmem with h0 | hi
        · subst h0; rw [hl] at hlk
          cases hlk; rw [hne] at hek; cases hek
        · simp only [hek, if_true]
          exact ih t i e hi hl hne
      · simp only [eq_false_of_ne_true hek, if_false, Bool.false_eq_true]
        cases hf : fetch k with
        | none =>
          rcases List.mem_cons.mp hmem with h0 | hi
          · subst h0; exact List.mem_cons_self _ _
          · exact List.mem_cons_of_mem _ (ih t i e hi hl hne)
        | some d =>
          by_cases hd : d.status = "completed"
          · simp only [hd, if_pos, if_false, Bool.false_eq_true]
            rcases List.mem_cons.mp hmem with h0 | hi
            · subst h0; exact List.mem_cons_self _ _
            · exact List.mem_cons_of_mem _ (ih t i e hi hl hne)
          · simp only [if_neg hd]
            rcases List.mem_cons.mp hmem with h0 | hi
            · subst h0; exact List.mem_cons_self _ _
            · exact List.mem_cons_of_mem _ (ih t i e hi hl hne)

/-! ### At-most-once completion notification -/

theorem countI_nil (i : Nat) : countI i [] = 0 := rfl

theorem countI_cons (i j : Nat) (m : String) (ms : List (Nat × String)) :
    countI i ((j, m) :: ms) =
      (if j = i then countI i ms + 1 else countI i ms) := by
  by_cases h : j = i
  · simp [countI, List.filter_cons, h]
  · simp [countI, List.filter_cons, h]

theorem countI_append (i : Nat) (ms ns : List (Nat × String)) :
    countI i (ms ++ ns) = countI i ms + countI i ns := by
  simp [countI, List.filter_append]

/-- The tracked entry of `i` exists and is already completion-notified. -/
def flagTrue (t : Table) (i : Nat) : Prop :=
  ∃ e, lookupId t i = some e ∧ e.notified_end = true

theorem flagTrue_setEntry_ne (t : Table) (k i : Nat) (f : TrackedRun → TrackedRun)
    (hki : k ≠ i) (h : flagTrue t i) : flagTrue (setEntry t k f) i := by
  obtain ⟨e, hle, hte⟩ := h
  exact ⟨e, by rw [lookupId_setEntry_ne _ _ _ _ hki]; exact hle, hte⟩

theorem checkCompletedAux_flagTrue (ctx : Ctx) (hs : Bool) (fetch : Nat → Option Run)
    (i : Nat) : ∀ (ks : List Nat) (t : Table), flagTrue t i →
      countI i (checkCompletedAux ctx hs fetch ks t).dispatched = 0 ∧
        flagTrue (checkCompletedAux ctx hs fetch ks t).table i := by
  intro ks
  induction ks with
  | nil => intro t h; exact ⟨rfl, h⟩
  | cons k is ih =>
    intro t h
    simp only [checkCompletedAux]
    cases hlk : lookupId t k with
    | none => exact ih t h
    | some ek =>
      by_cases hek : ek.notified_end = true
      · simp only [hek, if_true]; exact ih t h
      · simp only [eq_false_of_ne_true hek, if_false, Bool.false_eq_true]
        cases hf : fetch k with
        | none => exact ih t h
        | some d =>
          dsimp only
          by_cases hd : d.status = "completed"
          · rw [if_pos hd]
            cases hs with
            | false => exact ih t h
            | true =>
              simp only [if_true]
              have hki : k ≠ i := by
                intro hEq
                subst hEq
                obtain ⟨e, hle, hte⟩ := h
                rw [hlk] at hle
                cases hle
                rw [hte] at hek
                exact hek rfl
              have h2 := flagTrue_setEntry_ne t k i
                (fun en => { en with notified_end := true }) hki h
              have hrec := ih _ h2
              refine ⟨?_, hrec.2⟩
              rw [countI_cons, if_neg hki, hrec.1]
          · rw [if_neg hd]; exact ih t h

theorem checkCompletedAux_at_most_once (ctx : Ctx) (hs : Bool) (fetch : Nat → Option Run)
    (i : Nat) : ∀ (ks : List Nat) (t : Table),
      countI i (checkCompletedAux ctx hs fetch ks t).dispatched ≤ 1 ∧
        (1 ≤ countI i (checkCompletedAux ctx hs fetch ks t).dispatched →
          flagTrue (checkCompletedAux ctx hs fetch ks t).table i) := by
  intro ks
  induction ks with
  | nil =>
    intro t
    exact ⟨Nat.zero_le 1, fun h => absurd h (by simp [checkCompletedAux, countI_nil])⟩
  | cons k is ih =>
    intro t
    simp only [checkCompletedAux]
    cases hlk : lookupId t k with
    | none => exact ih t
    | some ek =>
      by_cases hek : ek.notified_end = true
      · simp only [hek, if_true]; exact ih t
      · simp only [eq_false_of_ne_true hek, if_false, Bool.false_eq_true]
        cases hf : fetch k with
        | none => exact ih t
        | some d =>
          dsimp only
          by_cases hd : d.status = "completed"
          · rw [if_pos hd]
            cases hs with
            | false => exact ih t
            | true =>
              simp only [if_true]
              by_cases hki : k = i
              · subst hki
                have h2 : flagTrue
                    (setEntry t k (fun en => { en with notified_end := true })) k := by
                  obtain ⟨e, hle⟩ := lookup_some_of_containsId t k
                    (containsId_of_lookup_some t k ek hlk)
                  exact ⟨{ e with notified_end := true },
                    by rw [lookupId_setEntry_self, hle]; rfl, rfl⟩
                have hrec := checkCompletedAux_flagTrue ctx true fetch k is _ h2
                constructor
                · rw [countI_cons, if_pos rfl, hrec.1]
                · intro _; exact hrec.2
              · have hrec := ih (setEntry t k (fun en => { en with notified_end := true }))
                constructor
                · rw [countI_cons, if_neg hki]; exact hrec.1
                · intro h1
                  rw [countI_cons, if_neg hki] at h1
                  exact hrec.2 h1
          · rw [if_neg hd]; exact ih t

theorem iterChecks_flagTrue (ctx : Ctx) (hs : Bool) (i : Nat) :
    ∀ (fs : List (Nat → Option Run)) (t : Table), flagTrue t i →
      countI i (iterChecks ctx hs fs t).2.1 = 0 ∧
        flagTrue (iterChecks ctx hs fs t).1 i := by
  intro fs
  induction fs with
  | nil => intro t h; exact ⟨rfl, h⟩
  | cons f fs ih =>
    intro t h
    have hA := checkCompletedAux_flagTrue ctx hs f i (t.map Prod.fst) t h
    have hrec := ih (checkCompleted ctx hs f t).table hA.2
    simp only [iterChecks]
    constructor
    · rw [countI_append]
      simp only [checkCompleted] at hA hrec ⊢
      rw [hA.1, hrec.1]
    · exact hrec.2

/-- C1, amended.  Across any number of completed-run checks on the tracker
state (the identifier neither evicted nor re-observed in between), a
completion notification for an identifier is dispatched at most once; and an
entry whose notifiedCompletion flag is already true never produces any
notification, no matter how often the fetch keeps returning
status=completed. -/
theorem find_completable_at_most_once (ctx : Ctx) (hs : Bool)
    (fs : List (Nat → Option Run)) (t : Table) (i : Nat) :
    countI i (iterChecks ctx hs fs t).2.1 ≤ 1 ∧
      (flagTrue t i → countI i (iterChecks ctx hs fs t).2.1 = 0) := by
  constructor
  · induction fs generalizing t with
    | nil => exact Nat.zero_le 1
    | cons f fs ih =>
      have hB := checkCompletedAux_at_most_once ctx hs f i (t.map Prod.fst) t
      simp only [iterChecks, countI_append]
      rcases Nat.eq_zero_or_pos (countI i (checkCompletedAux ctx hs f
          (t.map Prod.fst) t).dispatched) with h0 | h1
      · simp only [checkCompleted]
        rw [h0, Nat.zero_add]
        exact ih _
      · have hft := hB.2 h1
        have h0' := (iterChecks_flagTrue ctx hs i fs
          (checkCompleted ctx hs f t).table hft).1
        simp only [checkCompleted] at h0' ⊢
        rw [h0']
        exact hB.1
  · intro h
    exact (iterChecks_flagTrue ctx hs i fs t h).1

/-- Witness for C1 (amended): a single entry already completion-notified is
inert across two further checks whose fetch keeps returning completed. -/
theorem find_completable_at_most_once_witness :
    flagTrue [(4, ⟨true, true⟩)] 4 ∧
      countI 4 (iterChecks ⟨"o", "r", 0⟩ true
        [fun _ => some { id := 4, status := "completed" },
         fun _ => some { id := 4, status := "completed" }]
        [(4, ⟨true, true⟩)]).2.1 = 0 :=
  ⟨⟨⟨true, true⟩, by decide, rfl⟩,
    (find_completable_at_most_once ⟨"o", "r", 0⟩ true
      [fun _ => some { id := 4, status := "completed" },
       fun _ => some { id := 4, status := "completed" }]
      [(4, ⟨true, true⟩)] 4).2 ⟨⟨true, true⟩, by decide, rfl⟩⟩

/-- A run record reported by the fetch as completed (for the C1
counterexample). -/
def demoCompletedRun : Run :=
  { id := 1, status := "completed", conclusion := some "success" }

/-- Fetch responses for the C1 counterexample: run 1 is always completed,
nothing else resolves. -/
def demoFetch : Nat → Option Run :=
  fun i => if i = 1 then some demoCompletedRun else none

/-- Cycle in which run 1 is queued (C1 counterexample). -/
def demoCycleRun1 : CycleInput :=
  ⟨[{ id := 1, status := "queued" }], [], demoFetch⟩

/-- Cycle that floods the tracker with 51 fresh runs so that eviction drops
run 1 (C1 counterexample). -/
def demoCycleFlood : CycleInput :=
  ⟨(List.range 51).map (fun n => { id := n + 2, status := "queued" }), [],
    fun _ => none⟩

/-- C1, counterexample.  Claimed: across any number of polling cycles a
completion notification is dispatched at most once per identifier.  In the
concrete scenario below run 1 completes and is notified (cycle 1), 51 fresh
runs overflow the table so eviction drops run 1's entry (cycle 2), run 1 is
re-observed as active and its fetch still returns completed (cycle 3) — so
the monitor dispatches a second completion notification for identifier 1. -/
theorem completion_notified_twice_counterexample :
    countI 1 (runCycles ⟨"o", "r", 0⟩ true
      [demoCycleRun1, demoCycleFlood, demoCycleRun1] []).2 = 2 := by
  decide

/-! ### Absent fetch: skip without side effect, classified later (C5) -/

theorem checkCompletedAux_keys (ctx : Ctx) (hs : Bool) (fetch : Nat → Option Run) :
    ∀ (ks : List Nat) (t : Table),
      (checkCompletedAux ctx hs fetch ks t).table.map Prod.fst = t.map Prod.fst := by
  intro ks
  induction ks with
  | nil => intro t; rfl
  | cons k is ih =>
    intro t
    simp only [checkCompletedAux]
    cases hlk : lookupId t k with
    | none => exact ih t
    | some ek =>
      by_cases hek : ek.notified_end = true
      · simp only [hek, if_true]; exact ih t
      · simp only [eq_false_of_ne_true hek, if_false, Bool.false_eq_true]
        cases hf : fetch k with
        | none => exact ih t
        | some d =>
          dsimp only
          by_cases hd : d.status = "completed"
          · rw [if_pos hd]
            cases hs with
            | false => exact ih t
            | true =>
              simp only [if_true]
              rw [ih, keys_setEntry]
          · rw [if_neg hd]; exact ih t

theorem checkCompletedAux_absent_fetch (ctx : Ctx) (hs : Bool)
    (fetch : Nat → Option Run) (i : Nat) (hfi : fetch i = none) :
    ∀ (ks : List Nat) (t : Table),
      countI i (checkCompletedAux ctx hs fetch ks t).dispatched = 0 ∧
        lookupId (checkCompletedAux ctx hs fetch ks t).table i = lookupId t i := by
  intro ks
  induction ks with
  | nil => intro t; exact ⟨rfl, rfl⟩
  | cons k is ih =>
    intro t
    simp only [checkCompletedAux]
    cases hlk : lookupId t k with
    | none => exact ih t
    | some ek =>
      by_cases hek : ek.notified_end = true
      · simp only [hek, if_true]; exact ih t
      · simp only [eq_false_of_ne_true hek, if_false, Bool.false_eq_true]
        cases hf : fetch k with
        | none => exact ih t
        | some d =>
          dsimp only
          have hki : k ≠ i := by
            intro hEq; subst hEq; rw [hfi] at hf; cases hf
          by_cases hd : d.status = "completed"
          · rw [if_pos hd]
            cases hs with
            | false => exact ih t
            | true =>
              simp only [if_true]
              have hrec := ih (setEntry t k (fun en => { en with notified_end := true }))
              constructor
              · rw [countI_cons, if_neg hki, hrec.1]
              · rw [hrec.2, lookupId_setEntry_ne _ _ _ _ hki]
          · rw [if_neg hd]; exact ih t

theorem checkCompletedAux_completed_notifies (ctx : Ctx) (fetch : Nat → Option Run)
    (i : Nat) (d : Run) (hfd : fetch i = some d) (hds : d.status = "completed") :
    ∀ (ks : List Nat) (t : Table) (e : TrackedRun),
      i ∈ ks → lookupId t i = some e → e.notified_end = false →
      1 ≤ countI i (checkCompletedAux ctx true fetch ks t).dispatched := by
  intro ks
  induction ks with
  | nil => intro t e h; cases h
  | cons k is ih =>
    intro t e hmem hl hne
    simp only [checkCompletedAux]
    by_cases hki : k = i
    · subst hki
      rw [hl]
      simp only [hne, if_false, Bool.false_eq_true, hfd]
      rw [if_pos hds]
      simp only [if_true]
      rw [countI_cons, if_pos rfl]
      exact Nat.le_add_left 1 _
    · cases hlk : lookupId t k with
      | none =>
        rcases List.mem_cons.mp hmem with h0 | hi
        · exact absurd h0.symm hki
        · exact ih t e hi hl hne
      | some ek =>
        have hi : i ∈ is := by
          rcases List.mem_cons.mp hmem with h0 | hi
          · exact absurd h0.symm hki
          · exact hi
        by_cases hek : ek.notified_end = true
        · simp only [hek, if_true]
          exact ih t e hi hl hne
        · simp only [eq_false_of_ne_true hek, if_false, Bool.false_eq_true]
          cases hf : fetch k with
          | none => exact ih t e hi hl hne
          | some dk =>
            dsimp only
            by_cases hd : dk.status = "completed"
            · rw [if_pos hd]
              simp only [if_true]
              have hl2 : lookupId
                  (setEntry t k (fun en => { en with notified_end := true })) i = some e := by
                rw [lookupId_setEntry_ne _ _ _ _ hki]; exact hl
              have := ih _ e hi hl2 hne
              rw [countI_cons, if_neg hki]
              exact this
            · rw [if_neg hd]
              exact ih t e hi hl hne

/-- C5.  Atomicity on absent fetch: a tracked, not-yet-completed identifier
whose details fetch returns absent is skipped with no mutation and no
notification; on a later check whose fetch reports status=completed it is
classified and a completion notification is dispatched. -/
theorem absent_fetch_skipped_then_notified (ctx : Ctx) (hs : Bool) (t : Table)
    (i : Nat) (e : TrackedRun) (f1 f2 : Nat → Option Run) (d : Run)
    (he : lookupId t i = some e) (hne : e.notified_end = false)
    (h1 : f1 i = none) (h2 : f2 i = some d) (hd : d.status = "completed") :
    countI i (checkCompleted ctx hs f1 t).dispatched = 0 ∧
      lookupId (checkCompleted ctx hs f1 t).table i = some e ∧
      1 ≤ countI i
        (checkCompleted ctx true f2 (checkCompleted ctx hs f1 t).table).dispatched := by
  have habs := checkCompletedAux_absent_fetch ctx hs f1 i h1 (t.map Prod.fst) t
  refine ⟨habs.1, by rw [checkCompleted]; rw [habs.2]; exact he, ?_⟩
  have hkeys := checkCompletedAux_keys ctx hs f1 (t.map Prod.fst) t
  have hmem : i ∈ (checkCompleted ctx hs f1 t).table.map Prod.fst := by
    simp only [checkCompleted]
    rw [hkeys]
    exact lookupId_mem_keys t i e he
  refine checkCompletedAux_completed_notifies ctx f2 i d h2 hd _ _ e hmem ?_ hne
  simp only [checkCompleted]
  rw [habs.2]
  exact he

/-- Witness for C5 at a concrete input: identifier 7 is tracked and
unnotified, the first fetch is absent, the second reports completed. -/
theorem absent_fetch_skipped_then_notified_witness :
    lookupId [(7, ⟨true, false⟩)] 7 = some ⟨true, false⟩ ∧
      countI 7 (checkCompleted ⟨"o", "r", 0⟩ true (fun _ => none)
        [(7, ⟨true, false⟩)]).dispatched = 0 ∧
      lookupId (checkCompleted ⟨"o", "r", 0⟩ true (fun _ => none)
        [(7, ⟨true, false⟩)]).table 7 = some ⟨true, false⟩ ∧
      1 ≤ countI 7 (checkCompleted ⟨"o", "r", 0⟩ true
        (fun j => if j = 7 then some { id := 7, status := "completed" } else none)
        (checkCompleted ⟨"o", "r", 0⟩ true (fun _ => none)
          [(7, ⟨true, false⟩)]).table).dispatched := by
  have h := absent_fetch_skipped_then_notified ⟨"o", "r", 0⟩ true
    [(7, ⟨true, false⟩)] 7 ⟨true, false⟩ (fun _ => none)
    (fun j => if j = 7 then some { id := 7, status := "completed" } else none)
    { id := 7, status := "completed" } (by decide) rfl rfl (by decide) rfl
  exact ⟨by decide, h.1, h.2.1, h.2.2⟩

/-! ### Behaviour with no notification sink (C10) -/

theorem lookupId_pair_mem (t : Table) (i : Nat) (e : TrackedRun)
    (h : lookupId t i = some e) : (i, e) ∈ t := by
  induction t with
  | nil => simp [lookupId] at h
  | cons p t ih =>
    obtain ⟨a, b⟩ := p
    by_cases hp : a = i
    · subst hp
      rw [lookupId_cons_self] at h
      cases h
      exact List.mem_cons_self _ _
    · rw [lookupId_cons_ne _ _ _ _ hp] at h
      exact List.mem_cons_of_mem _ (ih h)

theorem iterChecks_false_table (ctx : Ctx) (fs : List (Nat → Option Run)) :
    ∀ t : Table, (iterChecks ctx false fs t).1 = t ∧
      (iterChecks ctx false fs t).2.1 = [] := by
  induction fs with
  | nil => intro t; exact ⟨rfl, rfl⟩
  | cons f fs ih =>
    intro t
    have h1 := checkCompletedAux_false_table ctx f (t.map Prod.fst) t
    simp only [iterChecks, checkCompleted]
    rw [h1.1, h1.2]
    have h2 := ih t
    rw [h2.1, h2.2]
    exact ⟨rfl, rfl⟩

theorem iterChecks_false_fetched (ctx : Ctx) (fs : List (Nat → Option Run)) :
    ∀ (t : Table) (i : Nat) (e : TrackedRun),
      lookupId t i = some e → e.notified_end = false →
      ∀ l ∈ (iterChecks ctx false fs t).2.2, i ∈ l := by
  induction fs with
  | nil => intro t i e _ _ l hl; cases hl
  | cons f fs ih =>
    intro t i e hl hne l hmem
    have h1 := checkCompletedAux_false_table ctx f (t.map Prod.fst) t
    simp only [iterChecks, checkCompleted] at hmem
    rcases List.mem_cons.mp hmem with h0 | hrest
    · subst h0
      exact checkCompletedAux_false_fetched ctx f (t.map Prod.fst) t i e
        (lookupId_mem_keys t i e hl) hl hne
    · rw [h1.1] at hrest
      exact ih t i e hl hne l hrest

/-- C10.  With no notification sink supplied, the new-run pass still inserts
every newly observed run (with both flags false) but dispatches nothing; the
completed-run checks of all subsequent cycles leave the table untouched,
dispatch nothing, never set a flag — and hence re-fetch every tracked,
never-completion-notified identifier on every one of those cycles. -/
theorem no_sink_inserts_but_never_notifies (ctx : Ctx) (rs : List Run) (t : Table)
    (fs : List (Nat → Option Run))
    (hAll : ∀ p ∈ t, p.2.notified_start = false ∧ p.2.notified_end = false) :
    processNewRuns ctx false rs t = ((observe_active t rs).1, []) ∧
      (∀ p ∈ (observe_active t rs).1,
        p.2.notified_start = false ∧ p.2.notified_end = false) ∧
      (iterChecks ctx false fs (observe_active t rs).1).1 = (observe_active t rs).1 ∧
      (iterChecks ctx false fs (observe_active t rs).1).2.1 = [] ∧
      (∀ (i : Nat) (e : TrackedRun), lookupId (observe_active t rs).1 i = some e →
        ∀ l ∈ (iterChecks ctx false fs (observe_active t rs).1).2.2, i ∈ l) := by
  have hflags := observe_active_flags_false rs t hAll
  refine ⟨processNewRuns_false_eq ctx rs t, hflags,
    (iterChecks_false_table ctx fs _).1, (iterChecks_false_table ctx fs _).2, ?_⟩
  intro i e hl
  have hne : e.notified_end = false :=
    (hflags (i, e) (lookupId_pair_mem _ i e hl)).2
  exact iterChecks_false_fetched ctx fs _ i e hl hne

/-- Witness for C10 at a concrete input: one already-tracked run, one new run,
two further cycles of checks. -/
theorem no_sink_inserts_but_never_notifies_witness :
    (∀ p ∈ [(3, (⟨false, false⟩ : TrackedRun))],
        p.2.notified_start = false ∧ p.2.notified_end = false) ∧
      (processNewRuns ⟨"o", "r", 0⟩ false [{ id := 9 }] [(3, ⟨false, false⟩)] =
          ((observe_active [(3, ⟨false, false⟩)] [{ id := 9 }]).1, []) ∧
        (∀ p ∈ (observe_active [(3, ⟨false, false⟩)] [{ id := 9 }]).1,
          p.2.notified_start = false ∧ p.2.notified_end = false) ∧
        (iterChecks ⟨"o", "r", 0⟩ false [fun _ => none, fun _ => none]
            (observe_active [(3, ⟨false, false⟩)] [{ id := 9 }]).1).1 =
          (observe_active [(3, ⟨false, false⟩)] [{ id := 9 }]).1 ∧
        (iterChecks ⟨"o", "r", 0⟩ false [fun _ => none, fun _ => none]
            (observe_active [(3, ⟨false, false⟩)] [{ id := 9 }]).1).2.1 = [] ∧
        (∀ (i : Nat) (e : TrackedRun),
          lookupId (observe_active [(3, ⟨false, false⟩)] [{ id := 9 }]).1 i = some e →
          ∀ l ∈ (iterChecks ⟨"o", "r", 0⟩ false [fun _ => none, fun _ => none]
              (observe_active [(3, ⟨false, false⟩)] [{ id := 9 }]).1).2.2, i ∈ l)) :=
  ⟨by decide,
    no_sink_inserts_but_never_notifies ⟨"o", "r", 0⟩ [{ id := 9 }]
      [(3, ⟨false, false⟩)] [fun _ => none, fun _ => none] (by decide)⟩

/-! ### Eviction (C4) -/

theorem containsId_iff_mem (t : Table) (i : Nat) :
    containsId t i = true ↔ i ∈ t.map Prod.fst := by
  constructor
  · intro h
    simp only [containsId, List.any_eq_true, beq_iff_eq] at h
    obtain ⟨p, hp, hpi⟩ := h
    exact hpi ▸ List.mem_map_of_mem Prod.fst hp
  · intro h
    obtain ⟨p, hp, hpi⟩ := List.mem_map.mp h
    simp only [containsId, List.any_eq_true, beq_iff_eq]
    exact ⟨p, hp, hpi⟩

theorem natList_contains_iff (l : List Nat) (a : Nat) :
    l.contains a = true ↔ a ∈ l := by
  simp [List.contains, List.any_eq_true, beq_iff_eq, eq_comm]

theorem filter_not_contains_take (t : Table) (hnd : (t.map Prod.fst).Nodup) :
    ∀ k : Nat,
      t.filter (fun p => !((t.map Prod.fst).take k).contains p.1) = t.drop k := by
  induction t with
  | nil => intro k; simp
  | cons p t ih =>
    obtain ⟨a, b⟩ := p
    simp only [List.map_cons, List.nodup_cons] at hnd
    intro k
    cases k with
    | zero =>
      simp [List.take_zero, List.drop_zero, List.filter_eq_self]
    | succ k =>
      simp only [List.map_cons]
      rw [List.take_succ_cons, List.drop_succ_cons]
      rw [List.filter_cons]
      have hhead : (!((a :: (t.map Prod.fst).take k).contains a)) = false := by
        simp [natList_contains_iff]
      rw [hhead]
      simp only [Bool.false_eq_true, if_false]
      have hcongr : t.filter (fun p => !((a :: (t.map Prod.fst).take k).contains p.1)) =
          t.filter (fun p => !(((t.map Prod.fst).take k).contains p.1)) := by
        refine List.filter_congr ?_
        intro q hq
        have hqa : q.1 ≠ a := by
          intro hEq
          exact hnd.1 (hEq ▸ List.mem_map_of_mem Prod.fst hq)
        simp only [List.contains_cons]
        rw [show (q.1 == a) = false by simpa using hqa]
        rw [Bool.false_or]
      rw [hcongr]
      exact ih hnd.2 k

theorem evict_eq_drop (t : Table) (hnd : (t.map Prod.fst).Nodup)
    (h : 50 < t.length) : evict t = t.drop (t.length - 30) := by
  simp only [evict, if_pos (show t.length > 50 from h)]
  exact filter_not_contains_take t hnd (t.length - 30)

/-- C4.  Eviction keeps exactly the most-recently-inserted 30 entries (in
insertion order) whenever the table exceeds 50 entries, regardless of the
entries' notification state; with 51 entries the 21 oldest identifiers are
dropped and afterwards absent. -/
theorem evict_keeps_last_30 (t : Table) (hnd : (t.map Prod.fst).Nodup)
    (h : 50 < t.length) :
    evict t = t.drop (t.length - 30) ∧
      (evict t).length = 30 ∧
      (∀ i ∈ (t.map Prod.fst).take (t.length - 30), containsId (evict t) i = false) ∧
      (t.length = 51 → evict t = t.drop 21) := by
  have heq := evict_eq_drop t hnd h
  refine ⟨heq, ?_, ?_, ?_⟩
  · rw [heq, List.length_drop]
    omega
  · intro i hi
    rw [heq]
    have hdisj := List.disjoint_take_drop hnd (Nat.le_refl (t.length - 30))
    have hnotmem : i ∉ (t.drop (t.length - 30)).map Prod.fst := by
      rw [List.map_drop]
      exact fun hin => hdisj hi hin
    cases hc : containsId (t.drop (t.length - 30)) i with
    | false => rfl
    | true => exact absurd ((containsId_iff_mem _ _).mp hc) hnotmem
  · intro h51
    rw [heq, h51]

/-- The 51-entry table used by the C4 witness. -/
def demoTable : Table := (List.range 51).map (fun n => (n, ⟨false, false⟩))

/-- Witness for C4 at the concrete 51-entry table of identifiers 0..50:
eviction retains exactly identifiers 21..50. -/
theorem evict_keeps_last_30_witness :
    (demoTable.map Prod.fst).Nodup ∧ 50 < demoTable.length ∧
      (evict demoTable = demoTable.drop (demoTable.length - 30) ∧
        (evict demoTable).length = 30 ∧
        (∀ i ∈ (demoTable.map Prod.fst).take (demoTable.length - 30),
          containsId (evict demoTable) i = false) ∧
        (demoTable.length = 51 → evict demoTable = demoTable.drop 21)) :=
  ⟨by decide, by decide, evict_keeps_last_30 demoTable (by decide) (by decide)⟩

/-! ### Completion-message conclusion mapping (C6) -/

theorem beginsWith_append (l r : List Char) : beginsWith (l ++ r) l = true := by
  induction l with
  | nil => cases r with | nil => rfl | cons c cs => rfl
  | cons c cs ih => simp [beginsWith, ih]

theorem containsSeq_nil_needle (l : List Char) : containsSeq l [] = true := by
  cases l with
  | nil => rfl
  | cons c cs => simp [containsSeq, beginsWith]

theorem containsSeq_self_append (n b : List Char) : containsSeq (n ++ b) n = true := by
  cases n with
  | nil => exact containsSeq_nil_needle b
  | cons c cs =>
    show (beginsWith ((c :: cs) ++ b) (c :: cs) || containsSeq (cs ++ b) (c :: cs)) = true
    rw [Bool.or_eq_true]
    exact Or.inl (beginsWith_append (c :: cs) b)

theorem containsSeq_append_left (x l n : List Char)
    (h : containsSeq l n = true) : containsSeq (x ++ l) n = true := by
  induction x with
  | nil => exact h
  | cons c cs ih =>
    show (beginsWith ((c :: cs) ++ l) n || containsSeq (cs ++ l) n) = true
    rw [Bool.or_eq_true]
    exact Or.inr ih

/-- C6, counterexample.  The completion message for conclusion "failure" does
not contain the label "FAILED" claimed by the spec — the code's labels are
Spanish ("FALLIDO" here). -/
theorem completion_message_failed_label_counterexample :
    strContains (create_completion_message ⟨"o", "r", 0⟩
      { id := 1, conclusion := some "failure" }) "FAILED" = false := by
  decide

/-- C6, amended.  The completion message maps the conclusion through the fixed
table success→(✅,"EXITOSO"), failure→(❌,"FALLIDO"), cancelled→(⏹️,"CANCELADO"),
skipped→(⏭️,"OMITIDO"), any other value→(⚠️,"COMPLETADO"), and for every run
record the composed message contains the mapped symbol and label. -/
theorem completion_message_conclusion_mapping :
    status_map "success" = ("✅", "EXITOSO") ∧
      status_map "failure" = ("❌", "FALLIDO") ∧
      status_map "cancelled" = ("⏹️", "CANCELADO") ∧
      status_map "skipped" = ("⏭️", "OMITIDO") ∧
      (∀ c, c ≠ "success" → c ≠ "failure" → c ≠ "cancelled" → c ≠ "skipped" →
        status_map c = ("⚠️", "COMPLETADO")) ∧
      (∀ (ctx : Ctx) (r : Run),
        strContains (create_completion_message ctx r)
          (status_map (r.conclusion.getD "unknown")).1 = true ∧
        strContains (create_completion_message ctx r)
          (status_map (r.conclusion.getD "unknown")).2 = true) := by
  refine ⟨rfl, rfl, rfl, rfl, ?_, ?_⟩
  · intro c h1 h2 h3 h4
    simp [status_map, h1, h2, h3, h4]
  · intro ctx r
    constructor
    · simp only [strContains, create_completion_message, String.data_append,
        List.append_assoc]
      exact containsSeq_self_append _ _
    · simp only [strContains, create_completion_message, String.data_append,
        List.append_assoc]
      apply containsSeq_append_left
      apply containsSeq_append_left
      exact containsSeq_self_append _ _

/-- Witness for C6 (amended) at concrete inputs: an unknown conclusion maps to
the default pair, and the failure message contains its symbol and label. -/
theorem completion_message_conclusion_mapping_witness :
    ("weird" ≠ "success" ∧ "weird" ≠ "failure" ∧ "weird" ≠ "cancelled" ∧
        "weird" ≠ "skipped") ∧
      status_map "weird" = ("⚠️", "COMPLETADO") ∧
      strContains (create_completion_message ⟨"o", "r", 0⟩
        { id := 1, conclusion := some "failure" }) "❌" = true ∧
      strContains (create_completion_message ⟨"o", "r", 0⟩
        { id := 1, conclusion := some "failure" }) "FALLIDO" = true :=
  ⟨⟨by decide, by decide, by decide, by decide⟩,
    completion_message_conclusion_mapping.2.2.2.2.1 "weird"
      (by decide) (by decide) (by decide) (by decide),
    (completion_message_conclusion_mapping.2.2.2.2.2 ⟨"o", "r", 0⟩
      { id := 1, conclusion := some "failure" }).1,
    (completion_message_conclusion_mapping.2.2.2.2.2 ⟨"o", "r", 0⟩
      { id := 1, conclusion := some "failure" }).2⟩

/-! ### Duration formatter totality (C7) -/

/-- C7.  `format_duration` is total (a Lean function) and returns the fixed
sentinel "Desconocida" whenever the start timestamp is absent or whenever the
parse the function attempts on either timestamp fails (an empty end string is
never parsed: it is falsy in Python, so the current time is used instead). -/
theorem format_duration_sentinel (nowSec : Int) (st et : Option String)
    (h : st = none ∨
      (∃ s, st = some s ∧ parseTimestamp (replaceZ s) = none) ∨
      (∃ e, et = some e ∧ e ≠ "" ∧ parseTimestamp (replaceZ e) = none)) :
    format_duration nowSec st et = "Desconocida" := by
  rcases h with h | ⟨s, hs, hp⟩ | ⟨e, he, hne, hp⟩
  · subst h; rfl
  · subst hs
    simp only [format_duration, hp]
  · subst he
    cases st with
    | none => rfl
    | some s =>
      simp only [format_duration]
      cases hsp : parseTimestamp (replaceZ s) with
      | none => rfl
      | some sv =>
        simp only [if_neg hne, hp]

/-- Witness for C7 at a concrete malformed start timestamp. -/
theorem format_duration_sentinel_witness :
    parseTimestamp (replaceZ "not-a-date") = none ∧
      format_duration 0 (some "not-a-date") none = "Desconocida" :=
  ⟨by decide, format_duration_sentinel 0 (some "not-a-date") none
    (Or.inr (Or.inl ⟨"not-a-date", rfl, by decide⟩))⟩

/-! ### Per-cycle active-run query (C8) -/

/-- C8, counterexample.  A run appearing in both the queued and the
in_progress provider results occurs twice in the active-run list: the code
concatenates the two lists and removes no duplicates. -/
theorem activeRuns_keeps_duplicates_counterexample :
    activeRuns [{ id := 3 }] [{ id := 3 }] ≠
      dedupById [] (activeRuns [{ id := 3 }] [{ id := 3 }]) := by
  decide

theorem processNewRuns_dedup (ctx : Ctx) (hs : Bool) :
    ∀ (l : List Run) (t : Table) (seen : List Nat),
      (∀ i ∈ seen, containsId t i = true) →
      processNewRuns ctx hs l t = processNewRuns ctx hs (dedupById seen l) t := by
  intro l
  induction l with
  | nil => intro t seen _; rfl
  | cons r rs ih =>
    intro t seen hseen
    by_cases hsn : seen.contains r.id = true
    · have hc : containsId t r.id = true :=
        hseen r.id ((natList_contains_iff seen r.id).mp hsn)
      simp only [dedupById, hsn, if_true, processNewRuns, hc]
      exact ih t seen hseen
    · simp only [dedupById, eq_false_of_ne_true hsn, Bool.false_eq_true, if_false]
      by_cases hc : containsId t r.id = true
      · simp only [processNewRuns, hc, if_true]
        refine ih t (r.id :: seen) ?_
        intro i hi
        rcases List.mem_cons.mp hi with h0 | h1
        · exact h0 ▸ hc
        · exact hseen i h1
      · simp only [processNewRuns, eq_false_of_ne_true hc, Bool.false_eq_true, if_false]
        have hmono : ∀ i ∈ r.id :: seen,
            containsId (t ++ [(r.id, (⟨false, false⟩ : TrackedRun))]) i = true := by
          intro i hi
          rcases List.mem_cons.mp hi with h0 | h1
          · subst h0; rw [containsId_append]; simp [containsId]
          · rw [containsId_append, hseen i h1, Bool.true_or]
        cases hs with
        | false => exact ih _ (r.id :: seen) hmono
        | true =>
          have hmono2 : ∀ i ∈ r.id :: seen,
              containsId (setEntry (t ++ [(r.id, (⟨false, false⟩ : TrackedRun))]) r.id
                (fun e => { e with notified_start := true })) i = true := by
            intro i hi
            rw [containsId_setEntry]
            exact hmono i hi
          rw [ih _ (r.id :: seen) hmono2]
          rfl

/-- C8, amended.  The active-run list is the plain concatenation of the
queued and in_progress provider results, duplicates included; but the new-run
pass classifies each identifier at most once, so its notifications and table
effects coincide with those of the first-occurrence-deduplicated list
(queued-call results taking precedence). -/
theorem activeRuns_concat_dedup_equiv (ctx : Ctx) (hs : Bool)
    (q p : List Run) (t : Table) :
    activeRuns q p = q ++ p ∧
      processNewRuns ctx hs (activeRuns q p) t =
        processNewRuns ctx hs (dedupById [] (activeRuns q p)) t :=
  ⟨rfl, processNewRuns_dedup ctx hs (activeRuns q p) t [] (by intro i hi; cases hi)⟩

/-! ### Construction (C9) -/

/-- C9, counterexample.  `__init__` performs no validation: constructing with
empty owner, name and credential succeeds and yields a monitor (the claim says
construction must fail whenever any of the three is empty). -/
theorem init_accepts_empty_counterexample :
    GitHubActionsMonitor.init "" "" "" =
      { repo_owner := "", repo_name := "", auth_header := "Bearer ",
        base_url := "https://api.github.com/repos//", monitored_runs := [] } := by
  decide

/-- C9, amended.  The constructor itself accepts any strings; the rejection
lives in `main`, whose guard refuses to construct the monitor exactly when
owner, name or credential is empty — so construction through the program entry
point succeeds if and only if all three are non-empty. -/
theorem mainConstruct_iff (owner name token : String) :
    (mainConstruct owner name token).isSome = true ↔
      owner ≠ "" ∧ name ≠ "" ∧ token ≠ "" := by
  by_cases h : owner = "" ∨ name = "" ∨ token = ""
  · rw [mainConstruct, if_pos h]
    simp only [Option.isSome_none, Bool.false_eq_true, false_iff]
    intro hcon
    rcases h with h | h | h
    · exact hcon.1 h
    · exact hcon.2.1 h
    · exact hcon.2.2 h
  · rw [mainConstruct, if_neg h]
    push_neg at h
    simp only [Option.isSome_some, true_iff]
    exact h

/-- Witness for C9 (amended) at concrete non-empty configuration values. -/
theorem mainConstruct_iff_witness :
    (mainConstruct "hdelafuente" "github-workflow-monitor" "tok").isSome = true :=
  (mainConstruct_iff "hdelafuente" "github-workflow-monitor" "tok").mpr
    ⟨by decide, by decide, by decide⟩
